import Mathlib

/-!
# Verification of the RPN logic engine (`rpnlogic.c`)

A shallow embedding of the expression compiler and stack-machine evaluator
of `rpnlogic.c`.  C doubles are modelled as exact rationals (`ℚ`): every
computation the claims exercise is exact in double precision, and division
by zero (which yields an IEEE infinity in C, a case no claim exercises) is
modelled by rational division's `x / 0 = 0` convention.  C `int` values are
modelled as unbounded `ℤ`; 32-bit wrap-around (undefined behaviour for the
out-of-range `(int)` casts in the source) is not modelled.  The stack
`struct stack { double *v; unsigned n, s; }` is modelled as a `List ℚ`
whose head is the top element `v[n-1]`.  External collaborators (the libt
timer scheduler, `rpn_lookup_env`, `rpn_run_again`, `time`/`localtime`)
are modelled as parameters and as emitted action lists.
-/

/-- C truncation of a double to `int` (`(int)x`): rounds toward zero. -/
def truncInt (x : ℚ) : ℤ := if 0 ≤ x then ⌊x⌋ else ⌈x⌉

/-- The 32-bit two's-complement bit pattern of a C `int` value. -/
def toBits32 (i : ℤ) : ℕ := (i % 2 ^ 32).toNat

/-- The C `int` value of a 32-bit two's-complement bit pattern. -/
def ofBits32 (n : ℕ) : ℤ := if n < 2 ^ 31 then (n : ℤ) else (n : ℤ) - 2 ^ 32

/-- C bitwise `&` on 32-bit two's-complement `int`s. -/
def int_and (a b : ℤ) : ℤ := ofBits32 (Nat.land (toBits32 a) (toBits32 b))

/-- C bitwise `|` on 32-bit two's-complement `int`s. -/
def int_or (a b : ℤ) : ℤ := ofBits32 (Nat.lor (toBits32 a) (toBits32 b))

/-- C bitwise `^` on 32-bit two's-complement `int`s. -/
def int_xor (a b : ℤ) : ℤ := ofBits32 (Nat.xor (toBits32 a) (toBits32 b))

/-- C bitwise `~` on a 32-bit two's-complement `int`. -/
def int_not (a : ℤ) : ℤ := ofBits32 (Nat.xor (toBits32 a) (2 ^ 32 - 1))

/-- Scan a maximal run of decimal digits: returns the accumulated value,
the number of digits consumed, and the remaining characters. -/
def scanDigits : List Char → ℕ → ℕ → ℕ × ℕ × List Char
  | c :: rest, acc, cnt =>
    if c.isDigit then scanDigits rest (10 * acc + (c.toNat - 48)) (cnt + 1)
    else (acc, cnt, c :: rest)
  | [], acc, cnt => (acc, cnt, [])

/-- Model of C `strtod` restricted to plain decimal notation with an
optional exponent: `[+-]digits[.digits][(e|E)[+-]digits]`.  Returns the
parsed value and the unconsumed suffix (the C `endp`); when no conversion
is possible it returns `0` with the input unconsumed, as `strtod` does.
(Hex floats, `inf`/`nan` and leading whitespace cannot occur in the
whitespace-split tokens this program feeds to `strtod`.) -/
def strtod (cs : List Char) : ℚ × List Char :=
  let signAndRest : ℚ × List Char :=
    match cs with
    | '+' :: r => (1, r)
    | '-' :: r => (-1, r)
    | _ => (1, cs)
  let sign := signAndRest.1
  let cs1 := signAndRest.2
  let ipart := scanDigits cs1 0 0
  let fpart :=
    match ipart.2.2 with
    | '.' :: r => scanDigits r 0 0
    | _ => (0, 0, ipart.2.2)
  if ipart.2.1 + fpart.2.1 = 0 then (0, cs)
  else
    let mant : ℚ := sign * ((ipart.1 : ℚ) + (fpart.1 : ℚ) / 10 ^ fpart.2.1)
    let cs3 := fpart.2.2
    match cs3 with
    | e :: r =>
      if e = 'e' ∨ e = 'E' then
        let esignAndRest : ℤ × List Char :=
          match r with
          | '+' :: rr => (1, rr)
          | '-' :: rr => (-1, rr)
          | _ => (1, r)
        let epart := scanDigits esignAndRest.2 0 0
        if epart.2.1 = 0 then (mant, cs3)
        else (mant * 10 ^ (esignAndRest.1 * epart.1), epart.2.2)
      else (mant, cs3)
    | [] => (mant, [])

/-- The numeric value of a token in the numeric-literal branch of
`rpn_parse`: `strtod`, then an optional `:`/`h`/`'`-separated part divided
by 60, then an optional `:`/`m`/`"`-separated part divided by 3600
(`rpnlogic.c` lines 508-512). -/
def tokNumValue (cs : List Char) : ℚ :=
  let p1 := strtod cs
  let p2 :=
    match p1.2 with
    | c :: rest =>
      if c = ':' ∨ c = 'h' ∨ c.toNat = 39 then
        let m := strtod rest
        (p1.1 + m.1 / 60, m.2)
      else p1
    | [] => p1
  match p2.2 with
  | c :: rest =>
    if c = ':' ∨ c = 'm' ∨ c = '"' then
      let s := strtod rest
      p2.1 + s.1 / 3600
    else p2.1
  | [] => p2.1

/-- The operation tag of a compiled node: the function pointer stored in
`rpn->run`, as a closed variant. -/
inductive RpnOp where
  | const | env
  | plus | minus | mul | div | pow
  | bitand | bitor | bitxor | bitinv
  | booland | boolor | boolnot
  | lt | gt
  | dup | swap
  | limit | inrange
  | ondelay | offdelay | pulse
  | edge | rising | falling
  | timeofday | dayofweek
deriving DecidableEq, Repr

/-- One compiled node (`struct rpn`).  `rpn_create` zeroes the whole
structure, so every field defaults to its zero value.  `topic`/`options`
model the `char *` fields as character lists; `cookie` is the per-node
persistent state; `dat` is the opaque owner handle; `addr` models the
node's identity (its address), used as the libt timer key. -/
structure Rpn where
  run : RpnOp
  value : ℚ := 0
  topic : Option (List Char) := none
  options : Option (List Char) := none
  cookie : ℤ := 0
  dat : ℕ := 0
  addr : ℕ := 0
deriving DecidableEq, Repr

/-- A libt callback identity together with its key: `on_delay` is keyed by
the node's address, `rpn_run_again` by the owner handle `me->dat`. -/
inductive TimerCb where
  | on_delay (addr : ℕ)
  | run_again (owner : ℕ)
deriving DecidableEq, Repr

/-- One interaction with the external libt timer scheduler. -/
inductive TimerAct where
  | add (delay : ℚ) (cb : TimerCb)
  | remove (cb : TimerCb)
deriving DecidableEq, Repr

/-- Result of one operator function: the C return code (`0`/`1` success,
negative = stack underflow), the stack after the call, the node after the
call (its `cookie` may have changed), and the timer actions issued. -/
structure DoResult where
  ret : ℤ
  st : List ℚ
  me : Rpn
  acts : List TimerAct := []
deriving DecidableEq, Repr

/-- Broken-down local time (`struct tm`), the part this program reads. -/
structure Tm where
  hour : ℤ
  min : ℤ
  sec : ℤ
  wday : ℤ
deriving DecidableEq, Repr

/-- The external environment value provider `rpn_lookup_env`. -/
def Env : Type := List Char → Option (List Char) → ℚ

/- algebra -/

/-- `rpn_do_plus`. -/
def rpn_do_plus (st : List ℚ) (me : Rpn) : DoResult :=
  match st with
  | b :: a :: r => ⟨0, (a + b) :: r, me, []⟩
  | _ => ⟨-1, st, me, []⟩

/-- `rpn_do_minus`. -/
def rpn_do_minus (st : List ℚ) (me : Rpn) : DoResult :=
  match st with
  | b :: a :: r => ⟨0, (a - b) :: r, me, []⟩
  | _ => ⟨-1, st, me, []⟩

/-- `rpn_do_mul`. -/
def rpn_do_mul (st : List ℚ) (me : Rpn) : DoResult :=
  match st with
  | b :: a :: r => ⟨0, (a * b) :: r, me, []⟩
  | _ => ⟨-1, st, me, []⟩

/-- `rpn_do_div`.  Rational division models exact double division;
`b = 0` (IEEE infinity in C) is modelled by `a / 0 = 0`. -/
def rpn_do_div (st : List ℚ) (me : Rpn) : DoResult :=
  match st with
  | b :: a :: r => ⟨0, (a / b) :: r, me, []⟩
  | _ => ⟨-1, st, me, []⟩

/-- `rpn_do_pow`.  Models `pow(a, b)` from math.h for integer exponents
(the only exactly-representable case); a non-integer exponent is modelled
as `0`. -/
def rpn_do_pow (st : List ℚ) (me : Rpn) : DoResult :=
  match st with
  | b :: a :: r => ⟨0, (if b.den = 1 then a ^ b.num else 0) :: r, me, []⟩
  | _ => ⟨-1, st, me, []⟩

/- utilities -/

/-- `rpn_do_limit`: clamp `v[n-3]` between `v[n-2]` and `v[n-1]`;
returns 1 on success. -/
def rpn_do_limit (st : List ℚ) (me : Rpn) : DoResult :=
  match st with
  | hi :: lo :: x :: r =>
    ⟨1, (if x < lo then lo else if x > hi then hi else x) :: r, me, []⟩
  | _ => ⟨-1, st, me, []⟩

/-- `rpn_do_inrange`: boolean range test on `v[n-3]` with bounds
`v[n-2]`, `v[n-1]`; the branch on `v[n-2] < v[n-1]` selects AND (regular
range) or OR (wrap-around range); returns 1 on success. -/
def rpn_do_inrange (st : List ℚ) (me : Rpn) : DoResult :=
  match st with
  | hi :: lo :: x :: r =>
    ⟨1, (if lo < hi then
          (if x ≥ lo ∧ x ≤ hi then (1 : ℚ) else 0)
         else
          (if x ≥ lo ∨ x ≤ hi then (1 : ℚ) else 0)) :: r, me, []⟩
  | _ => ⟨-1, st, me, []⟩

/- bitwise -/

/-- `rpn_do_bitand`: `(int)a & (int)b`. -/
def rpn_do_bitand (st : List ℚ) (me : Rpn) : DoResult :=
  match st with
  | b :: a :: r => ⟨0, ((int_and (truncInt a) (truncInt b) : ℤ) : ℚ) :: r, me, []⟩
  | _ => ⟨-1, st, me, []⟩

/-- `rpn_do_bitor`: `(int)a | (int)b`. -/
def rpn_do_bitor (st : List ℚ) (me : Rpn) : DoResult :=
  match st with
  | b :: a :: r => ⟨0, ((int_or (truncInt a) (truncInt b) : ℤ) : ℚ) :: r, me, []⟩
  | _ => ⟨-1, st, me, []⟩

/-- `rpn_do_bitxor`: `(int)a ^ (int)b`. -/
def rpn_do_bitxor (st : List ℚ) (me : Rpn) : DoResult :=
  match st with
  | b :: a :: r => ⟨0, ((int_xor (truncInt a) (truncInt b) : ℤ) : ℚ) :: r, me, []⟩
  | _ => ⟨-1, st, me, []⟩

/-- `rpn_do_bitinv`: `~(int)a`. -/
def rpn_do_bitinv (st : List ℚ) (me : Rpn) : DoResult :=
  match st with
  | a :: r => ⟨0, ((int_not (truncInt a) : ℤ) : ℚ) :: r, me, []⟩
  | _ => ⟨-1, st, me, []⟩

/- boolean -/

/-- `rpn_do_booland`: `(int)a && (int)b`. -/
def rpn_do_booland (st : List ℚ) (me : Rpn) : DoResult :=
  match st with
  | b :: a :: r =>
    ⟨0, (if truncInt a ≠ 0 ∧ truncInt b ≠ 0 then (1 : ℚ) else 0) :: r, me, []⟩
  | _ => ⟨-1, st, me, []⟩

/-- `rpn_do_boolor`: `(int)a || (int)b`. -/
def rpn_do_boolor (st : List ℚ) (me : Rpn) : DoResult :=
  match st with
  | b :: a :: r =>
    ⟨0, (if truncInt a ≠ 0 ∨ truncInt b ≠ 0 then (1 : ℚ) else 0) :: r, me, []⟩
  | _ => ⟨-1, st, me, []⟩

/-- `rpn_do_boolnot`: `!(int)a`. -/
def rpn_do_boolnot (st : List ℚ) (me : Rpn) : DoResult :=
  match st with
  | a :: r => ⟨0, (if truncInt a = 0 then (1 : ℚ) else 0) :: r, me, []⟩
  | _ => ⟨-1, st, me, []⟩

/- compare -/

/-- `rpn_do_lt`: `a < (int)b` (the right operand is truncated to int,
then promoted back to double for the comparison). -/
def rpn_do_lt (st : List ℚ) (me : Rpn) : DoResult :=
  match st with
  | b :: a :: r => ⟨0, (if a < ((truncInt b : ℤ) : ℚ) then (1 : ℚ) else 0) :: r, me, []⟩
  | _ => ⟨-1, st, me, []⟩

/-- `rpn_do_gt`: `a > (int)b`. -/
def rpn_do_gt (st : List ℚ) (me : Rpn) : DoResult :=
  match st with
  | b :: a :: r => ⟨0, (if a > ((truncInt b : ℤ) : ℚ) then (1 : ℚ) else 0) :: r, me, []⟩
  | _ => ⟨-1, st, me, []⟩

/- generic -/

/-- `rpn_do_const`: push the embedded constant. -/
def rpn_do_const (st : List ℚ) (me : Rpn) : DoResult :=
  ⟨0, me.value :: st, me, []⟩

/-- `rpn_do_env`: push the external lookup of the node's topic/options. -/
def rpn_do_env (env : Env) (st : List ℚ) (me : Rpn) : DoResult :=
  ⟨0, env (me.topic.getD []) me.options :: st, me, []⟩

/-- `rpn_do_dup`: duplicate the top element. -/
def rpn_do_dup (st : List ℚ) (me : Rpn) : DoResult :=
  match st with
  | x :: r => ⟨0, x :: x :: r, me, []⟩
  | _ => ⟨-1, st, me, []⟩

/-- `rpn_do_swap`: exchange the top two elements. -/
def rpn_do_swap (st : List ℚ) (me : Rpn) : DoResult :=
  match st with
  | b :: a :: r => ⟨0, a :: b :: r, me, []⟩
  | _ => ⟨-1, st, me, []⟩

/- timer functions -/

/-- The libt timer callback `on_delay`: toggles bit 1 of the node's cookie
(`me->cookie ^= 2`) and calls `rpn_run_again(me->dat)`.  Returns the
updated node and the owner handle whose re-evaluation is requested. -/
def on_delay (me : Rpn) : Rpn × ℕ :=
  ({me with cookie := int_xor me.cookie 2}, me.dat)

/-- `rpn_do_offdelay`: `v[n-2]` is the input, `v[n-1]` the delay. -/
def rpn_do_offdelay (st : List ℚ) (me : Rpn) : DoResult :=
  match st with
  | d :: x :: r =>
    let inval := truncInt x
    let step1 : ℤ × List TimerAct :=
      if inval = 0 ∧ int_and me.cookie 1 ≠ 0 then
        (me.cookie, [TimerAct.add d (TimerCb.on_delay me.addr)])
      else if inval ≠ 0 ∧ int_and me.cookie 1 = 0 then
        (int_or me.cookie 2, [TimerAct.remove (TimerCb.on_delay me.addr)])
      else (me.cookie, [])
    let c2 := int_or (int_and step1.1 (int_not 1)) (if inval ≠ 0 then 1 else 0)
    ⟨0, (if int_and c2 2 ≠ 0 then (1 : ℚ) else 0) :: r, {me with cookie := c2}, step1.2⟩
  | _ => ⟨-1, st, me, []⟩

/-- `rpn_do_ondelay`: `v[n-2]` is the input, `v[n-1]` the delay. -/
def rpn_do_ondelay (st : List ℚ) (me : Rpn) : DoResult :=
  match st with
  | d :: x :: r =>
    let inval := truncInt x
    let step1 : ℤ × List TimerAct :=
      if inval ≠ 0 ∧ int_and me.cookie 1 = 0 then
        (me.cookie, [TimerAct.add d (TimerCb.on_delay me.addr)])
      else if inval = 0 ∧ int_and me.cookie 1 ≠ 0 then
        (int_and me.cookie (int_not 2), [TimerAct.remove (TimerCb.on_delay me.addr)])
      else (me.cookie, [])
    let c2 := int_or (int_and step1.1 (int_not 1)) (if inval ≠ 0 then 1 else 0)
    ⟨0, (if int_and c2 2 ≠ 0 then (1 : ℚ) else 0) :: r, {me with cookie := c2}, step1.2⟩
  | _ => ⟨-1, st, me, []⟩

/-- `rpn_do_pulse`: `v[n-2]` is the input, `v[n-1]` the delay. -/
def rpn_do_pulse (st : List ℚ) (me : Rpn) : DoResult :=
  match st with
  | d :: x :: r =>
    let inval := truncInt x
    let step1 : ℤ × List TimerAct :=
      if inval ≠ 0 ∧ int_and me.cookie 1 = 0 then
        (int_or me.cookie 2, [TimerAct.add d (TimerCb.on_delay me.addr)])
      else if inval = 0 ∧ int_and me.cookie 1 ≠ 0 then
        (me.cookie, [TimerAct.remove (TimerCb.on_delay me.addr)])
      else (me.cookie, [])
    let c2 := int_or (int_and step1.1 (int_not 1)) (if inval ≠ 0 then 1 else 0)
    ⟨0, (if int_and c2 2 ≠ 0 then (1 : ℚ) else 0) :: r, {me with cookie := c2}, step1.2⟩
  | _ => ⟨-1, st, me, []⟩

/- event functions -/

/-- `rpn_do_edge`: output 1 when the truncated input differs from the
stored previous value; the cookie stores the new truncated input. -/
def rpn_do_edge (st : List ℚ) (me : Rpn) : DoResult :=
  match st with
  | x :: r =>
    let inval := truncInt x
    ⟨0, (if inval ≠ me.cookie then (1 : ℚ) else 0) :: r, {me with cookie := inval}, []⟩
  | _ => ⟨-1, st, me, []⟩

/-- `rpn_do_rising`: output 1 on a 0→nonzero transition
(`inval && !me->cookie`); the cookie stores the new truncated input. -/
def rpn_do_rising (st : List ℚ) (me : Rpn) : DoResult :=
  match st with
  | x :: r =>
    let inval := truncInt x
    ⟨0, (if inval ≠ 0 ∧ me.cookie = 0 then (1 : ℚ) else 0) :: r, {me with cookie := inval}, []⟩
  | _ => ⟨-1, st, me, []⟩

/-- `rpn_do_falling`: output 1 on a nonzero→0 transition
(`!inval && me->cookie`); the cookie stores the new truncated input. -/
def rpn_do_falling (st : List ℚ) (me : Rpn) : DoResult :=
  match st with
  | x :: r =>
    let inval := truncInt x
    ⟨0, (if inval = 0 ∧ me.cookie ≠ 0 then (1 : ℚ) else 0) :: r, {me with cookie := inval}, []⟩
  | _ => ⟨-1, st, me, []⟩

/- date/time functions -/

/-- `next_minute`: seconds until the next minute boundary,
`60 - tm_sec` forced back to 60 when out of the interval 1..60. -/
def next_minute (tm : Tm) : ℤ :=
  let next := 60 - tm.sec
  if next ≤ 0 ∨ next > 60 then 60 else next

/-- `rpn_do_timeofday`: pushes the local time as decimal hours and
schedules `rpn_run_again(me->dat)` at the next minute boundary.  The
broken-down local time is a parameter (the `time`/`localtime` reads). -/
def rpn_do_timeofday (tm : Tm) (st : List ℚ) (me : Rpn) : DoResult :=
  ⟨0, ((tm.hour : ℚ) + (tm.min : ℚ) / 60 + (tm.sec : ℚ) / 3600) :: st, me,
   [TimerAct.add ((next_minute tm : ℤ) : ℚ) (TimerCb.run_again me.dat)]⟩

/-- `rpn_do_dayofweek`: pushes `tm_wday ?: 7` (push 7 for Sunday) and
schedules `rpn_run_again(me->dat)` at the next minute boundary. -/
def rpn_do_dayofweek (tm : Tm) (st : List ℚ) (me : Rpn) : DoResult :=
  ⟨0, ((if tm.wday = 0 then 7 else tm.wday : ℤ) : ℚ) :: st, me,
   [TimerAct.add ((next_minute tm : ℤ) : ℚ) (TimerCb.run_again me.dat)]⟩

/- run time functions -/

/-- `rpn_stack_reset`: clear the stack (`st->n = 0`). -/
def rpn_stack_reset (_st : List ℚ) : List ℚ := []

/-- Dispatch on the node's operation tag: the C call `rpn->run(st, rpn)`
through the stored function pointer. -/
def rpn_step (env : Env) (tm : Tm) (st : List ℚ) (me : Rpn) : DoResult :=
  match me.run with
  | .const => rpn_do_const st me
  | .env => rpn_do_env env st me
  | .plus => rpn_do_plus st me
  | .minus => rpn_do_minus st me
  | .mul => rpn_do_mul st me
  | .div => rpn_do_div st me
  | .pow => rpn_do_pow st me
  | .bitand => rpn_do_bitand st me
  | .bitor => rpn_do_bitor st me
  | .bitxor => rpn_do_bitxor st me
  | .bitinv => rpn_do_bitinv st me
  | .booland => rpn_do_booland st me
  | .boolor => rpn_do_boolor st me
  | .boolnot => rpn_do_boolnot st me
  | .lt => rpn_do_lt st me
  | .gt => rpn_do_gt st me
  | .dup => rpn_do_dup st me
  | .swap => rpn_do_swap st me
  | .limit => rpn_do_limit st me
  | .inrange => rpn_do_inrange st me
  | .ondelay => rpn_do_ondelay st me
  | .offdelay => rpn_do_offdelay st me
  | .pulse => rpn_do_pulse st me
  | .edge => rpn_do_edge st me
  | .rising => rpn_do_rising st me
  | .falling => rpn_do_falling st me
  | .timeofday => rpn_do_timeofday tm st me
  | .dayofweek => rpn_do_dayofweek tm st me

/-- Result of `rpn_run`: the C return value, plus the final state of the
in-place-mutated stack and chain and the timer actions issued. -/
structure RunResult where
  ret : ℤ
  st : List ℚ
  chain : List Rpn
  acts : List TimerAct
deriving DecidableEq, Repr

/-- `rpn_run`: walk the chain, stopping at the first negative return.
Nodes after the failing one are not executed and pass through unchanged. -/
def rpn_run (env : Env) (tm : Tm) (st : List ℚ) : List Rpn → RunResult
  | [] => ⟨0, st, [], []⟩
  | me :: rest =>
    let r := rpn_step env tm st me
    if r.ret < 0 then ⟨r.ret, r.st, r.me :: rest, r.acts⟩
    else
      let rr := rpn_run env tm r.st rest
      ⟨rr.ret, rr.st, r.me :: rr.chain, r.acts ++ rr.acts⟩

/- parser -/

/-- The keyword table `lookups` of `rpnlogic.c`, in source order, mapping
token text to the operation whose function pointer the entry stores
(`changed` shares `rpn_do_edge`, `pushed` shares `rpn_do_rising`). -/
def lookups : List (List Char × RpnOp) :=
  [("+".toList, .plus), ("-".toList, .minus), ("*".toList, .mul),
   ("/".toList, .div), ("**".toList, .pow),
   ("&".toList, .bitand), ("|".toList, .bitor), ("^".toList, .bitxor),
   ("~".toList, .bitinv),
   ("&&".toList, .booland), ("||".toList, .boolor), ("!".toList, .boolnot),
   ("<".toList, .lt), (">".toList, .gt),
   ("dup".toList, .dup), ("swap".toList, .swap),
   ("limit".toList, .limit), ("inrange".toList, .inrange),
   ("ondelay".toList, .ondelay), ("offdelay".toList, .offdelay),
   ("pulse".toList, .pulse),
   ("edge".toList, .edge), ("rising".toList, .rising),
   ("falling".toList, .falling), ("changed".toList, .edge),
   ("pushed".toList, .rising),
   ("timeofday".toList, .timeofday), ("dayofweek".toList, .dayofweek)]

/-- `do_lookup`: exact-match scan of the keyword table. -/
def do_lookup (tok : List Char) : Option RpnOp :=
  (lookups.find? (fun p => p.1 == tok)).map (fun p => p.2)

/-- The numeric-literal test of `rpn_parse` line 505: the token starts
with a digit, or has a second character and starts with `+`/`-` followed
by a digit. -/
def isNumericTok (tok : List Char) : Bool :=
  match tok with
  | [] => false
  | c :: rest =>
    c.isDigit ||
      (match rest with
       | c1 :: _ => (c == '+' || c == '-') && c1.isDigit
       | [] => false)

/-- The `${...}` test of `rpn_parse` line 514: first two characters are
`$` `{` and the last character is `}`. -/
def isEnvTok (tok : List Char) : Bool :=
  match tok with
  | '$' :: '{' :: rest => rest.getLast? == some '}'
  | _ => false

/-- `strrchr(topic, ',')`-based split of an env reference body: everything
after the last comma becomes the options string and is cut off the
topic; no comma means no options. -/
def strrchrSplit (cs : List Char) : List Char × Option (List Char) :=
  let r := cs.reverse
  let pre := r.takeWhile (fun c => c != ',')
  match r.dropWhile (fun c => c != ',') with
  | ',' :: before => (before.reverse, some pre.reverse)
  | _ => (cs, none)

/-- Classification of one token, in the source's order of precedence:
numeric literal, `${name[,options]}` reference, keyword; anything else
fails.  `dat` is the owner handle stored in every node, `addr` the
created node's identity. -/
def classifyTok (dat addr : ℕ) (tok : List Char) : Option Rpn :=
  if isNumericTok tok then
    some { run := .const, value := tokNumValue tok, dat := dat, addr := addr }
  else if isEnvTok tok then
    let body := (tok.drop 2).dropLast
    let split := strrchrSplit body
    some { run := .env, topic := some split.1, options := split.2,
           dat := dat, addr := addr }
  else
    match do_lookup tok with
    | some op => some { run := op, dat := dat, addr := addr }
    | none => none

/-- `strtok(savedstr, " \t")` tokenization: split on blanks and tabs. -/
def splitWsAux : List Char → List Char → List (List Char)
  | [], acc => [acc.reverse]
  | c :: cs, acc =>
    if c = ' ' ∨ c = '\t' then acc.reverse :: splitWsAux cs []
    else splitWsAux cs (c :: acc)

/-- All (nonempty) whitespace-separated tokens of the source string. -/
def tokenize (s : String) : List (List Char) :=
  (splitWsAux s.toList []).filter (fun t => !t.isEmpty)

/-- The token loop of `rpn_parse`: classify each token in turn; on the
first unknown token the whole partial chain is discarded (`rpn_free_chain`
+ `root = NULL`).  `none` models the NULL return. -/
def parseToks (dat : ℕ) : ℕ → List (List Char) → Option (List Rpn)
  | _, [] => some []
  | i, t :: ts =>
    match classifyTok dat i t with
    | none => none
    | some node =>
      match parseToks dat (i + 1) ts with
      | none => none
      | some ch => some (node :: ch)

/-- `rpn_parse(cstr, dat)`: the returned chain pointer, where the empty
list is the NULL pointer (returned both for an empty token list and after
a failed compile). -/
def rpn_parse (dat : ℕ) (cstr : String) : List Rpn :=
  (parseToks dat 0 (tokenize cstr)).getD []

/-- A trivial environment provider, for concrete evaluations. -/
def env0 : Env := fun _ _ => 0

/-- A fixed broken-down time, for concrete evaluations. -/
def tm0 : Tm := ⟨0, 0, 0, 0⟩

/-- Evaluate a single stateful node once per input value, each pass seeing
only that input on the stack: returns the output (top of stack) of each
pass, threading the node's persistent cookie between passes. -/
def runSeq (env : Env) (tm : Tm) (me : Rpn) : List ℚ → List ℚ × Rpn
  | [] => ([], me)
  | x :: xs =>
    let r := rpn_step env tm [x] me
    let rest := runSeq env tm r.me xs
    (r.st.headD 0 :: rest.1, rest.2)

/-- The minimum stack depth each operation requires (the bound each
`rpn_do_` function checks against before touching the stack). -/
def minDepth : RpnOp → ℕ
  | .const | .env | .timeofday | .dayofweek => 0
  | .bitinv | .boolnot | .dup | .edge | .rising | .falling => 1
  | .limit | .inrange => 3
  | _ => 2

/- spec-side reference semantics -/

/-- The pure-operator tokens of the spec's operator catalogue: arithmetic,
bitwise, boolean, comparison, `dup` and `swap` (no external lookups, no
state, no timers). -/
def pureOps : List (List Char) :=
  ["+".toList, "-".toList, "*".toList, "/".toList, "**".toList,
   "&".toList, "|".toList, "^".toList, "~".toList,
   "&&".toList, "||".toList, "!".toList,
   "<".toList, ">".toList, "dup".toList, "swap".toList]

/-- A token is a numeric literal or a pure operator. -/
def pureTok (t : List Char) : Bool := isNumericTok t || pureOps.contains t

/-- Spec-side application of a unary operator: pop the operand, push the
result; fewer than one operand is not well-formed. -/
def specApply1 (f : ℚ → ℚ) (st : List ℚ) : Option (List ℚ) :=
  match st with
  | a :: r => some (f a :: r)
  | _ => none

/-- Spec-side application of a binary operator: pop the right then the
left operand, push the result; fewer than two operands is not
well-formed. -/
def specApply2 (f : ℚ → ℚ → ℚ) (st : List ℚ) : Option (List ℚ) :=
  match st with
  | b :: a :: r => some (f a b :: r)
  | _ => none

/-- Spec-side `dup`: duplicate the top element. -/
def specDup (st : List ℚ) : Option (List ℚ) :=
  match st with
  | a :: r => some (a :: a :: r)
  | _ => none

/-- Spec-side `swap`: exchange the top two elements. -/
def specSwap (st : List ℚ) : Option (List ℚ) :=
  match st with
  | b :: a :: r => some (a :: b :: r)
  | _ => none

/-- Reference postfix semantics of one token, written from the spec's
operator catalogue (§4.3-4.4): a numeric literal pushes its constant; an
operator pops its operands off the top of the stack and pushes the result
(bitwise, boolean and the right comparison operand truncated to int,
booleans canonicalized to 0/1); a stack with too few operands, or an
unknown token, is not well-formed. -/
def specStepTok (t : List Char) (st : List ℚ) : Option (List ℚ) :=
  if isNumericTok t then some (tokNumValue t :: st)
  else
    match t with
    | ['+'] => specApply2 (fun a b => a + b) st
    | ['-'] => specApply2 (fun a b => a - b) st
    | ['*'] => specApply2 (fun a b => a * b) st
    | ['/'] => specApply2 (fun a b => a / b) st
    | ['*', '*'] => specApply2 (fun a b => if b.den = 1 then a ^ b.num else 0) st
    | ['&'] => specApply2 (fun a b => ((int_and (truncInt a) (truncInt b) : ℤ) : ℚ)) st
    | ['|'] => specApply2 (fun a b => ((int_or (truncInt a) (truncInt b) : ℤ) : ℚ)) st
    | ['^'] => specApply2 (fun a b => ((int_xor (truncInt a) (truncInt b) : ℤ) : ℚ)) st
    | ['~'] => specApply1 (fun a => ((int_not (truncInt a) : ℤ) : ℚ)) st
    | ['&', '&'] =>
      specApply2 (fun a b => if truncInt a ≠ 0 ∧ truncInt b ≠ 0 then (1 : ℚ) else 0) st
    | ['|', '|'] =>
      specApply2 (fun a b => if truncInt a ≠ 0 ∨ truncInt b ≠ 0 then (1 : ℚ) else 0) st
    | ['!'] => specApply1 (fun a => if truncInt a = 0 then (1 : ℚ) else 0) st
    | ['<'] => specApply2 (fun a b => if a < ((truncInt b : ℤ) : ℚ) then (1 : ℚ) else 0) st
    | ['>'] => specApply2 (fun a b => if a > ((truncInt b : ℤ) : ℚ) then (1 : ℚ) else 0) st
    | ['d', 'u', 'p'] => specDup st
    | ['s', 'w', 'a', 'p'] => specSwap st
    | _ => none

/-- Reference postfix evaluation of a token sequence on a stack; `none`
when the sequence is not a well-formed postfix expression. -/
def specEval : List (List Char) → List ℚ → Option (List ℚ)
  | [], st => some st
  | t :: ts, st =>
    match specStepTok t st with
    | none => none
    | some st1 => specEval ts st1

/- theorems -/

set_option maxHeartbeats 1000000 in
theorem tok_bridge (dat i : ℕ) (t : List Char) (st st1 : List ℚ) (env : Env) (tm : Tm)
    (hp : pureTok t = true) (hs : specStepTok t st = some st1) :
    ∃ node, classifyTok dat i t = some node ∧
      rpn_step env tm st node = ⟨0, st1, node, []⟩ := by
  by_cases hn : isNumericTok t = true
  · refine ⟨{ run := .const, value := tokNumValue t, dat := dat, addr := i }, ?_, ?_⟩
    · simp [classifyTok, hn]
    · have h1 : st1 = tokNumValue t :: st := by
        simp [specStepTok, hn] at hs
        exact hs.symm
      subst h1
      simp [rpn_step, rpn_do_const]
  · have ht : t ∈ pureOps := by
      simp only [pureTok, Bool.or_eq_true] at hp
      rcases hp with h | h
      · exact absurd h hn
      · exact List.mem_of_elem_eq_true h
    simp only [pureOps, List.mem_cons, List.mem_singleton, List.not_mem_nil, or_false,
      show "dup".toList = ['d', 'u', 'p'] from rfl,
      show "swap".toList = ['s', 'w', 'a', 'p'] from rfl,
      show "+".toList = ['+'] from rfl, show "-".toList = ['-'] from rfl,
      show "*".toList = ['*'] from rfl, show "/".toList = ['/'] from rfl,
      show "**".toList = ['*', '*'] from rfl, show "&".toList = ['&'] from rfl,
      show "|".toList = ['|'] from rfl, show "^".toList = ['^'] from rfl,
      show "~".toList = ['~'] from rfl, show "&&".toList = ['&', '&'] from rfl,
      show "||".toList = ['|', '|'] from rfl, show "!".toList = ['!'] from rfl,
      show "<".toList = ['<'] from rfl, show ">".toList = ['>'] from rfl] at ht
    rcases ht with rfl | rfl | rfl | rfl | rfl | rfl | rfl | rfl | rfl | rfl | rfl | rfl |
      rfl | rfl | rfl | rfl <;>
    refine ⟨_, rfl, ?_⟩ <;>
    rcases st with _ | ⟨b, _ | ⟨a, r⟩⟩ <;>
    first
      | exact Option.noConfusion hs
      | (injection hs with h; subst h; rfl)

theorem parse_run_pure (env : Env) (tm : Tm) (dat : ℕ) :
    ∀ (toks : List (List Char)) (i : ℕ) (st res : List ℚ),
      (∀ t ∈ toks, pureTok t = true) → specEval toks st = some res →
      ∃ ch, parseToks dat i toks = some ch ∧
        rpn_run env tm st ch = ⟨0, res, ch, []⟩ := by
  intro toks
  induction toks with
  | nil =>
    intro i st res _ hspec
    refine ⟨[], rfl, ?_⟩
    simp only [specEval, Option.some.injEq] at hspec
    subst hspec
    rfl
  | cons t ts ih =>
    intro i st res hall hspec
    cases hstep : specStepTok t st with
    | none =>
      rw [specEval, hstep] at hspec
      exact Option.noConfusion hspec
    | some st1 =>
      rw [specEval, hstep] at hspec
      obtain ⟨node, hc, hstepeq⟩ :=
        tok_bridge dat i t st st1 env tm (hall t (by simp)) hstep
      obtain ⟨ch, hp', hr'⟩ :=
        ih (i + 1) st1 res (fun u hu => hall u (by simp [hu])) hspec
      refine ⟨node :: ch, ?_, ?_⟩
      · simp [parseToks, hc, hp']
      · simp [rpn_run, hstepeq, hr']

/-- C1: for every source string of whitespace-separated numeric-literal
and pure-operator tokens (arithmetic, bitwise, boolean, comparison, dup,
swap) denoting a well-formed postfix expression, `rpn_parse` followed by
`rpn_run` on a freshly reset stack succeeds (returns 0) and leaves exactly
the reference postfix evaluation result on the stack (the chain is
unchanged and no timer interaction happens). -/
theorem C1_compile_run_postfix_correct (s : String) (dat : ℕ) (env : Env) (tm : Tm)
    (st0 res : List ℚ)
    (htok : ∀ t ∈ tokenize s, pureTok t = true)
    (hspec : specEval (tokenize s) [] = some res) :
    rpn_run env tm (rpn_stack_reset st0) (rpn_parse dat s) =
      ⟨0, res, rpn_parse dat s, []⟩ := by
  obtain ⟨ch, hp', hr'⟩ :=
    parse_run_pure env tm dat (tokenize s) 0 [] res htok hspec
  have hparse : rpn_parse dat s = ch := by simp [rpn_parse, hp']
  rw [hparse]
  exact hr'

theorem tokNumValue_lit3 : tokNumValue ['3'] = 3 := by
  simp [tokNumValue, strtod, scanDigits]

theorem tokNumValue_lit4 : tokNumValue ['4'] = 4 := by
  simp [tokNumValue, strtod, scanDigits]

theorem specEval_34plus : specEval (tokenize "3 4 +") [] = some [7] := by
  rw [show tokenize "3 4 +" = [['3'], ['4'], ['+']] from by decide]
  rw [show specEval [['3'], ['4'], ['+']] [] =
        some [tokNumValue ['3'] + tokNumValue ['4']] from rfl]
  rw [tokNumValue_lit3, tokNumValue_lit4]
  norm_num

/-- Witness for C1: compiling and running `"3 4 +"` leaves exactly `[7]`. -/
theorem C1_witness :
    rpn_run env0 tm0 (rpn_stack_reset []) (rpn_parse 0 "3 4 +") =
      ⟨0, [7], rpn_parse 0 "3 4 +", []⟩ :=
  C1_compile_run_postfix_correct "3 4 +" 0 env0 tm0 [] [7] (by decide) specEval_34plus

theorem tokNumValue_neg130 : tokNumValue "-1:30".toList = -(1 / 2) := by
  simp [tokNumValue, strtod, scanDigits]
  norm_num

theorem tokNumValue_130 : tokNumValue "1:30".toList = 3 / 2 := by
  simp [tokNumValue, strtod, scanDigits]
  norm_num

theorem tokNumValue_1h30m : tokNumValue "1h30m".toList = 3 / 2 := by
  simp [tokNumValue, strtod, scanDigits]
  norm_num

/-- Counterexample for C2: the token `"-1:30"` does not compile to the
constant `-1.5`; it compiles to `-0.5`, because the minutes part is added
to (not subtracted from) the already negative `strtod` result `-1`. -/
theorem C2_counterexample :
    (rpn_parse 0 "-1:30").map Rpn.value = [-(1 / 2)] ∧
      (rpn_parse 0 "-1:30").map Rpn.value ≠ [-(3 / 2)] := by
  have h : (rpn_parse 0 "-1:30").map Rpn.value = [tokNumValue "-1:30".toList] := rfl
  rw [h, tokNumValue_neg130]
  refine ⟨rfl, ?_⟩
  intro hbad
  have : -(1 / 2 : ℚ) = -(3 / 2) := by injection hbad
  norm_num at this

/-- C2 (amended): a first separator in `{':','h','\x27'}` adds the
following number divided by 60, a second separator in `{':','m','"'}`
adds the following number divided by 3600; `"1:30"` and `"1h30m"` compile
to the constant `1.5`, and `"-1:30"` compiles to `-0.5` (the minutes part
is added to the negative integer part, not subtracted). -/
theorem C2_sexagesimal_literals :
    (∀ (cs rest : List Char) (v1 : ℚ) (c : Char),
        strtod cs = (v1, c :: rest) → (c = ':' ∨ c = 'h' ∨ c.toNat = 39) →
        (strtod rest).2 = [] →
        tokNumValue cs = v1 + (strtod rest).1 / 60) ∧
    (∀ (cs r1 r2 : List Char) (v1 v2 : ℚ) (c1 c2 : Char),
        strtod cs = (v1, c1 :: r1) → (c1 = ':' ∨ c1 = 'h' ∨ c1.toNat = 39) →
        strtod r1 = (v2, c2 :: r2) → (c2 = ':' ∨ c2 = 'm' ∨ c2 = '"') →
        tokNumValue cs = v1 + v2 / 60 + (strtod r2).1 / 3600) ∧
    (rpn_parse 0 "1:30").map Rpn.value = [3 / 2] ∧
    (rpn_parse 0 "1h30m").map Rpn.value = [3 / 2] ∧
    (rpn_parse 0 "-1:30").map Rpn.value = [-(1 / 2)] := by
  refine ⟨?_, ?_, ?_, ?_, ?_⟩
  · intro cs rest v1 c h1 hsep hend
    simp only [tokNumValue, h1, if_pos hsep]
    rcases h2 : strtod rest with ⟨v2, r2⟩
    simp only [h2] at hend ⊢
    subst hend
    rfl
  · intro cs r1 r2 v1 v2 c1 c2 h1 hsep1 h2 hsep2
    simp only [tokNumValue, h1, if_pos hsep1, h2, if_pos hsep2]
  · rw [show (rpn_parse 0 "1:30").map Rpn.value = [tokNumValue "1:30".toList] from rfl,
      tokNumValue_130]
  · rw [show (rpn_parse 0 "1h30m").map Rpn.value = [tokNumValue "1h30m".toList] from rfl,
      tokNumValue_1h30m]
  · rw [show (rpn_parse 0 "-1:30").map Rpn.value = [tokNumValue "-1:30".toList] from rfl,
      tokNumValue_neg130]

/-- Witness for C2's amended theorem at concrete separator input:
`strtod "1:30" = (1, ":30")`, `:` is a first separator, and the value is
`1 + 30/60`. -/
theorem C2_witness :
    tokNumValue "1:30".toList = 1 + (strtod "30".toList).1 / 60 :=
  C2_sexagesimal_literals.1 "1:30".toList "30".toList 1 ':'
    (by simp [strtod, scanDigits]) (by simp) (by simp [strtod, scanDigits])

/-- C3: compilation is atomic.  If any token of the source is neither a
numeric literal, nor a `${...}` reference, nor a keyword of the operator
table, `rpn_parse` returns no chain at all (the NULL pointer, after
freeing every node of the partial chain); it never returns a partially
valid chain. -/
theorem C3_compile_atomic (s : String) (dat : ℕ)
    (h : ∃ t ∈ tokenize s,
      isNumericTok t = false ∧ isEnvTok t = false ∧ do_lookup t = none) :
    rpn_parse dat s = [] := by
  obtain ⟨t, ht, h1, h2, h3⟩ := h
  suffices hs : parseToks dat 0 (tokenize s) = none by simp [rpn_parse, hs]
  have key : ∀ (toks : List (List Char)) (i : ℕ), t ∈ toks →
      parseToks dat i toks = none := by
    intro toks
    induction toks with
    | nil =>
      intro i hmem
      cases hmem
    | cons u us ih =>
      intro i hmem
      rcases List.mem_cons.mp hmem with rfl | hmem2
      · have hc : classifyTok dat i t = none := by
          simp [classifyTok, h1, h2, h3]
        simp [parseToks, hc]
      · cases hc : classifyTok dat i u with
        | none => simp [parseToks, hc]
        | some node => simp [parseToks, hc, ih (i + 1) hmem2]
  exact key (tokenize s) 0 ht

/-- Witness for C3: `"3 bogus +"` compiles to no chain. -/
theorem C3_witness : rpn_parse 0 "3 bogus +" = [] :=
  C3_compile_atomic "3 bogus +" 0
    ⟨"bogus".toList, by decide, by decide, by decide, by decide⟩

/-- C4: `rpn_run` stops at the first operator that reports stack
underflow: the failing node's result is returned as is, the nodes after
it are not executed (they pass through unchanged, independent of what
they are), and the stack keeps its partial state.  In particular the
chain of `"1 +"` fails with only the constant 1 on the stack. -/
theorem C4_run_stops_on_underflow :
    (∀ (env : Env) (tm : Tm) (st : List ℚ) (node : Rpn) (rest : List Rpn),
        (rpn_step env tm st node).ret < 0 →
        rpn_run env tm st (node :: rest) =
          ⟨(rpn_step env tm st node).ret, (rpn_step env tm st node).st,
           (rpn_step env tm st node).me :: rest, (rpn_step env tm st node).acts⟩) ∧
    (∀ (env : Env) (tm : Tm),
        rpn_run env tm [] (rpn_parse 0 "1 +") =
          ⟨-1, [1], rpn_parse 0 "1 +", []⟩) := by
  constructor
  · intro env tm st node rest h
    rw [rpn_run, if_pos h]
  · intro env tm
    have hv : tokNumValue ['1'] = 1 := by simp [tokNumValue, strtod, scanDigits]
    have h0 : rpn_run env tm [] (rpn_parse 0 "1 +") =
        ⟨-1, [tokNumValue ['1']], rpn_parse 0 "1 +", []⟩ := rfl
    rw [h0, hv]

/-- Witness for C4: the `+` node underflows on a one-element stack, and
`rpn_run` returns that failure without touching the rest of the chain. -/
theorem C4_witness :
    rpn_run env0 tm0 [(1 : ℚ)] [{ run := .plus }, { run := .dup }] =
      ⟨-1, [1], [{ run := .plus }, { run := .dup }], []⟩ :=
  (C4_run_stops_on_underflow.1 env0 tm0 [(1 : ℚ)] { run := .plus }
    [{ run := .dup }] (by decide))

/-- C5: `ondelay` (input at `v[n-2]`, delay at `v[n-1]`).  From idle state
(cookie 0), a high input outputs 0, records the high input in bit 0 and
schedules the `on_delay` timer with the given delay; the `on_delay`
callback toggles bit 1 of the cookie and requests a re-evaluation of the
owner (`me->dat`); re-evaluating with the input still high (cookie 3)
then outputs 1 without timer interaction; if instead the input drops
while the timer is pending (cookie 1), the timer is cancelled, bit 1
stays clear and the output stays 0. -/
theorem C5_ondelay_behavior :
    (∀ (env : Env) (tm : Tm) (me : Rpn) (x d : ℚ) (r : List ℚ),
        me.run = .ondelay → me.cookie = 0 → truncInt x ≠ 0 →
        rpn_step env tm (d :: x :: r) me =
          ⟨0, 0 :: r, { me with cookie := 1 },
           [TimerAct.add d (TimerCb.on_delay me.addr)]⟩) ∧
    (∀ (env : Env) (tm : Tm) (me : Rpn) (x d : ℚ) (r : List ℚ),
        me.run = .ondelay → me.cookie = 1 → truncInt x ≠ 0 →
        rpn_step env tm (d :: x :: r) me = ⟨0, 0 :: r, { me with cookie := 1 }, []⟩) ∧
    (∀ me : Rpn,
        (on_delay me).1.cookie = int_xor me.cookie 2 ∧ (on_delay me).2 = me.dat) ∧
    (∀ (env : Env) (tm : Tm) (me : Rpn) (x d : ℚ) (r : List ℚ),
        me.run = .ondelay → me.cookie = 3 → truncInt x ≠ 0 →
        rpn_step env tm (d :: x :: r) me = ⟨0, 1 :: r, { me with cookie := 3 }, []⟩) ∧
    (∀ (env : Env) (tm : Tm) (me : Rpn) (x d : ℚ) (r : List ℚ),
        me.run = .ondelay → me.cookie = 1 → truncInt x = 0 →
        rpn_step env tm (d :: x :: r) me =
          ⟨0, 0 :: r, { me with cookie := 0 },
           [TimerAct.remove (TimerCb.on_delay me.addr)]⟩) := by
  refine ⟨?_, ?_, ?_, ?_, ?_⟩
  · intro env tm me x d r hrun hc hx
    simp +decide [rpn_step, hrun, rpn_do_ondelay, hc, hx]
  · intro env tm me x d r hrun hc hx
    simp +decide [rpn_step, hrun, rpn_do_ondelay, hc, hx]
  · intro me
    exact ⟨rfl, rfl⟩
  · intro env tm me x d r hrun hc hx
    simp +decide [rpn_step, hrun, rpn_do_ondelay, hc, hx]
  · intro env tm me x d r hrun hc hx
    simp +decide [rpn_step, hrun, rpn_do_ondelay, hc, hx]

/-- Witness for C5: a concrete ondelay node with delay 5 going through
rising edge (schedule, output 0), post-timer re-evaluation (output 1) and
cancel-on-drop (remove, output 0). -/
theorem C5_witness :
    rpn_step env0 tm0 [5, 1] { run := RpnOp.ondelay } =
      ⟨0, [0], { run := RpnOp.ondelay, cookie := 1 },
       [TimerAct.add 5 (TimerCb.on_delay 0)]⟩ ∧
    rpn_step env0 tm0 [5, 1] { run := RpnOp.ondelay, cookie := 3 } =
      ⟨0, [1], { run := RpnOp.ondelay, cookie := 3 }, []⟩ ∧
    rpn_step env0 tm0 [5, 0] { run := RpnOp.ondelay, cookie := 1 } =
      ⟨0, [0], { run := RpnOp.ondelay, cookie := 0 },
       [TimerAct.remove (TimerCb.on_delay 0)]⟩ :=
  ⟨C5_ondelay_behavior.1 env0 tm0 { run := RpnOp.ondelay } 1 5 [] rfl rfl
     (by simp [truncInt]),
   C5_ondelay_behavior.2.2.2.1 env0 tm0 { run := RpnOp.ondelay, cookie := 3 } 1 5 [] rfl rfl
     (by simp [truncInt]),
   C5_ondelay_behavior.2.2.2.2 env0 tm0 { run := RpnOp.ondelay, cookie := 1 } 0 5 [] rfl rfl
     (by simp [truncInt])⟩

/-- C10: `pulse` on a falling edge while the timer is pending (cookie 3)
cancels the timer but does not clear the latched output bit: that
evaluation still outputs 1 with cookie 2, and every further evaluation
with the input low keeps cookie 2 and output 1; only a later rising edge
(cookie 2, input high) schedules a timer again, and when that timer fires
`on_delay` toggles bit 1 (cookie 3 becomes 1), which clears the output. -/
theorem C10_pulse_cancel_keeps_output :
    (∀ (env : Env) (tm : Tm) (me : Rpn) (x d : ℚ) (r : List ℚ),
        me.run = .pulse → me.cookie = 3 → truncInt x = 0 →
        rpn_step env tm (d :: x :: r) me =
          ⟨0, 1 :: r, { me with cookie := 2 },
           [TimerAct.remove (TimerCb.on_delay me.addr)]⟩) ∧
    (∀ (env : Env) (tm : Tm) (me : Rpn) (x d : ℚ) (r : List ℚ),
        me.run = .pulse → me.cookie = 2 → truncInt x = 0 →
        rpn_step env tm (d :: x :: r) me = ⟨0, 1 :: r, { me with cookie := 2 }, []⟩) ∧
    (∀ (env : Env) (tm : Tm) (me : Rpn) (x d : ℚ) (r : List ℚ),
        me.run = .pulse → me.cookie = 2 → truncInt x ≠ 0 →
        rpn_step env tm (d :: x :: r) me =
          ⟨0, 1 :: r, { me with cookie := 3 },
           [TimerAct.add d (TimerCb.on_delay me.addr)]⟩) ∧
    (∀ me : Rpn, me.cookie = 3 →
        (on_delay me).1.cookie = 1 ∧ (on_delay me).2 = me.dat) := by
  refine ⟨?_, ?_, ?_, ?_⟩
  · intro env tm me x d r hrun hc hx
    simp +decide [rpn_step, hrun, rpn_do_pulse, hc, hx]
  · intro env tm me x d r hrun hc hx
    simp +decide [rpn_step, hrun, rpn_do_pulse, hc, hx]
  · intro env tm me x d r hrun hc hx
    simp +decide [rpn_step, hrun, rpn_do_pulse, hc, hx]
  · intro me hc
    simp +decide [on_delay, hc]

/-- Witness for C10: a concrete pulse node with delay 2 going through
cancel-on-falling-edge (output stays 1) and a quiet low evaluation
(output still 1). -/
theorem C10_witness :
    rpn_step env0 tm0 [2, 0] { run := RpnOp.pulse, cookie := 3 } =
      ⟨0, [1], { run := RpnOp.pulse, cookie := 2 },
       [TimerAct.remove (TimerCb.on_delay 0)]⟩ ∧
    rpn_step env0 tm0 [2, 0] { run := RpnOp.pulse, cookie := 2 } =
      ⟨0, [1], { run := RpnOp.pulse, cookie := 2 }, []⟩ :=
  ⟨C10_pulse_cancel_keeps_output.1 env0 tm0 { run := RpnOp.pulse, cookie := 3 } 0 2 [] rfl
     rfl (by simp [truncInt]),
   C10_pulse_cancel_keeps_output.2.1 env0 tm0 { run := RpnOp.pulse, cookie := 2 } 0 2 [] rfl
     rfl (by simp [truncInt])⟩

/-- C6: `inrange` replaces `v[n-3]` by a boolean computed from the bounds
`lo = v[n-2]`, `hi = v[n-1]` and pops the bounds: when `lo < hi` the
result is `x >= lo AND x <= hi`, otherwise the wrap-around branch gives
`x >= lo OR x <= hi`; with bounds `(22,6)`, input 23 yields true and
input 10 yields false; when `lo = hi` the wrap branch is taken and every
input yields true. -/
theorem C6_inrange_wraparound :
    (∀ (env : Env) (tm : Tm) (me : Rpn) (x lo hi : ℚ) (r : List ℚ),
        me.run = .inrange →
        rpn_step env tm (hi :: lo :: x :: r) me =
          ⟨1, (if lo < hi then (if x ≥ lo ∧ x ≤ hi then (1 : ℚ) else 0)
               else (if x ≥ lo ∨ x ≤ hi then (1 : ℚ) else 0)) :: r, me, []⟩) ∧
    (∀ (env : Env) (tm : Tm) (me : Rpn) (r : List ℚ), me.run = .inrange →
        rpn_step env tm (6 :: 22 :: 23 :: r) me = ⟨1, 1 :: r, me, []⟩) ∧
    (∀ (env : Env) (tm : Tm) (me : Rpn) (r : List ℚ), me.run = .inrange →
        rpn_step env tm (6 :: 22 :: 10 :: r) me = ⟨1, 0 :: r, me, []⟩) ∧
    (∀ (env : Env) (tm : Tm) (me : Rpn) (x lo : ℚ) (r : List ℚ), me.run = .inrange →
        rpn_step env tm (lo :: lo :: x :: r) me = ⟨1, 1 :: r, me, []⟩) := by
  refine ⟨?_, ?_, ?_, ?_⟩
  · intro env tm me x lo hi r h
    simp [rpn_step, h, rpn_do_inrange]
  · intro env tm me r h
    norm_num [rpn_step, h, rpn_do_inrange]
  · intro env tm me r h
    norm_num [rpn_step, h, rpn_do_inrange]
  · intro env tm me x lo r h
    rcases le_total lo x with h1 | h1 <;>
      simp [rpn_step, h, rpn_do_inrange, h1, lt_irrefl]

/-- Witness for C6: input 23 against the wrap-around bounds (22,6) is in
range, input 10 is not. -/
theorem C6_witness :
    rpn_step env0 tm0 [6, 22, 23] { run := RpnOp.inrange } =
      ⟨1, [1], { run := RpnOp.inrange }, []⟩ ∧
    rpn_step env0 tm0 [6, 22, 10] { run := RpnOp.inrange } =
      ⟨1, [0], { run := RpnOp.inrange }, []⟩ :=
  ⟨C6_inrange_wraparound.2.1 env0 tm0 { run := RpnOp.inrange } [] rfl,
   C6_inrange_wraparound.2.2.1 env0 tm0 { run := RpnOp.inrange } [] rfl⟩

/-- C7: `rising` (with `pushed` as an alias in the keyword table) replaces
the top of stack with 1 exactly when the truncated input is nonzero and
the stored previous input (the cookie, zero-initialized by `rpn_create`)
was zero, then stores the new truncated input; on successive inputs
`0,1,1,0,1` it outputs `0,1,0,0,1`. -/
theorem C7_rising_stateful :
    (∀ (env : Env) (tm : Tm) (me : Rpn) (x : ℚ) (r : List ℚ),
        me.run = .rising →
        rpn_step env tm (x :: r) me =
          ⟨0, (if truncInt x ≠ 0 ∧ me.cookie = 0 then (1 : ℚ) else 0) :: r,
           { me with cookie := truncInt x }, []⟩) ∧
    do_lookup "pushed".toList = some RpnOp.rising ∧
    (∀ (env : Env) (tm : Tm),
        runSeq env tm { run := RpnOp.rising } [0, 1, 1, 0, 1] =
          ([0, 1, 0, 0, 1], { run := RpnOp.rising, cookie := 1 })) := by
  refine ⟨?_, rfl, ?_⟩
  · intro env tm me x r h
    simp [rpn_step, h, rpn_do_rising]
  · intro env tm
    simp +decide [runSeq, rpn_step, rpn_do_rising, truncInt]

/-- Witness for C7: a rising edge on a fresh node outputs 1 and stores
the new input. -/
theorem C7_witness :
    rpn_step env0 tm0 [1] { run := RpnOp.rising } =
      ⟨0, [1], { run := RpnOp.rising, cookie := 1 }, []⟩ := by
  have h := C7_rising_stateful.1 env0 tm0 { run := RpnOp.rising } 1 [] rfl
  simpa [truncInt] using h

/-- C8: with the current broken-down local time, `timeofday` pushes
`hour + min/60 + sec/3600` (decimal hours) and `dayofweek` pushes the ISO
weekday (`tm_wday ?: 7`, mapping C's Sunday=0 to 7, Monday=1 .. Saturday=6
unchanged); both schedule a one-shot re-evaluation of the owner
(`rpn_run_again(me->dat)`) after `next_minute` seconds, which equals
`60 - tm_sec` whenever that lies in 1..60 and is always in 1..60. -/
theorem C8_clock_ops :
    (∀ (env : Env) (tm : Tm) (st : List ℚ) (me : Rpn), me.run = .timeofday →
        rpn_step env tm st me =
          ⟨0, ((tm.hour : ℚ) + (tm.min : ℚ) / 60 + (tm.sec : ℚ) / 3600) :: st, me,
           [TimerAct.add ((next_minute tm : ℤ) : ℚ) (TimerCb.run_again me.dat)]⟩) ∧
    (∀ (env : Env) (tm : Tm) (st : List ℚ) (me : Rpn), me.run = .dayofweek →
        rpn_step env tm st me =
          ⟨0, ((if tm.wday = 0 then 7 else tm.wday : ℤ) : ℚ) :: st, me,
           [TimerAct.add ((next_minute tm : ℤ) : ℚ) (TimerCb.run_again me.dat)]⟩) ∧
    (∀ tm : Tm, 1 ≤ next_minute tm ∧ next_minute tm ≤ 60) ∧
    (∀ tm : Tm, 1 ≤ 60 - tm.sec → 60 - tm.sec ≤ 60 → next_minute tm = 60 - tm.sec) := by
  refine ⟨?_, ?_, ?_, ?_⟩
  · intro env tm st me h
    simp [rpn_step, h, rpn_do_timeofday]
  · intro env tm st me h
    simp [rpn_step, h, rpn_do_dayofweek]
  · intro tm
    simp only [next_minute]
    split <;> omega
  · intro tm h1 h2
    simp only [next_minute]
    split <;> omega

/-- Witness for C8: at local time 12:30:15 on a Sunday, `timeofday`
pushes `12 + 30/60 + 15/3600` and schedules the owner's re-evaluation in
45 seconds; `dayofweek` pushes 7. -/
theorem C8_witness :
    rpn_step env0 ⟨12, 30, 15, 0⟩ [] { run := RpnOp.timeofday } =
      ⟨0, [(12 : ℚ) + (30 : ℚ) / 60 + (15 : ℚ) / 3600], { run := RpnOp.timeofday },
       [TimerAct.add (45 : ℚ) (TimerCb.run_again 0)]⟩ ∧
    rpn_step env0 ⟨12, 30, 15, 0⟩ [] { run := RpnOp.dayofweek } =
      ⟨0, [(7 : ℚ)], { run := RpnOp.dayofweek },
       [TimerAct.add (45 : ℚ) (TimerCb.run_again 0)]⟩ := by
  constructor
  · have h := C8_clock_ops.1 env0 ⟨12, 30, 15, 0⟩ [] { run := RpnOp.timeofday } rfl
    simpa [next_minute] using h
  · have h := C8_clock_ops.2.1 env0 ⟨12, 30, 15, 0⟩ [] { run := RpnOp.dayofweek } rfl
    simpa [next_minute] using h

set_option maxHeartbeats 1600000 in
/-- C9: every operator checks its minimum stack depth first: the result
is the underflow error exactly when the stack is shallower than the
operator's arity, and in that case the stack, the node's persistent state
and the timer environment are all left untouched. -/
theorem C9_underflow_atomic :
    ∀ (env : Env) (tm : Tm) (st : List ℚ) (me : Rpn),
      ((rpn_step env tm st me).ret < 0 ↔ st.length < minDepth me.run) ∧
      ((rpn_step env tm st me).ret < 0 → rpn_step env tm st me = ⟨-1, st, me, []⟩) := by
  intro env tm st me
  cases h : me.run <;>
    rcases st with _ | ⟨a, _ | ⟨b, _ | ⟨c, r⟩⟩⟩ <;>
    simp [rpn_step, h, minDepth, rpn_do_plus, rpn_do_minus, rpn_do_mul, rpn_do_div,
      rpn_do_pow, rpn_do_limit, rpn_do_inrange, rpn_do_bitand, rpn_do_bitor,
      rpn_do_bitxor, rpn_do_bitinv, rpn_do_booland, rpn_do_boolor, rpn_do_boolnot,
      rpn_do_lt, rpn_do_gt, rpn_do_const, rpn_do_env, rpn_do_dup, rpn_do_swap,
      rpn_do_ondelay, rpn_do_offdelay, rpn_do_pulse, rpn_do_edge, rpn_do_rising,
      rpn_do_falling, rpn_do_timeofday, rpn_do_dayofweek]

/-- Witness for C9: `+` on an empty stack underflows and changes
nothing. -/
theorem C9_witness :
    rpn_step env0 tm0 [] { run := RpnOp.plus } = ⟨-1, [], { run := RpnOp.plus }, []⟩ :=
  (C9_underflow_atomic env0 tm0 [] { run := RpnOp.plus }).2 (by decide)
